import Mathlib

/-!
Verification of the St. John Medical Center cost-itemizer core
(`src/js/app.js`) against its natural-language specification.

The embedding translates the JavaScript source directly:
* catalog rows are the flat item arrays `[desc, gross, dc, codes, drug_u,
  drug_t, ...]`, modelled as a structure with `Option` fields where the
  JavaScript value may be `null`/`undefined`;
* JavaScript numbers are modelled as exact rationals (`ℚ`); float64
  rounding is abstracted away, which is exact on all realistic inputs here;
* `null`/`undefined` results become `Option.none`;
* JavaScript falsy coalescing (`a || b`) on numbers is modelled explicitly:
  `0`, `null` and `undefined` are falsy.
-/

/-- JavaScript `a || b` for an optional number `a`: `a` when `a` is a
nonzero number, else `b` (both `null`/`undefined` and `0` are falsy). -/
def jsOrQ (a : Option ℚ) (b : ℚ) : ℚ :=
  match a with
  | some q => if q = 0 then b else q
  | none => b

/-- One catalog row, from the item arrays of `app.js`
(`[desc, gross, dc, codes_str, drug_u, drug_t, ...]`).  Only the fields the
core logic reads are kept. -/
structure Row where
  desc : String
  gross : Option ℚ
  dc : Option ℚ
  codes : String
  drugU : Option ℚ
  drugT : String
  deriving Repr, DecidableEq

/-- A payer rate table: the sparse JSON object `itemIndex → amount`,
as an association list.  Lookup of an absent key is `none` (JS
`undefined`). -/
def PayerRates := List (Nat × ℚ)

/-- JSON-object key lookup `rates[String(itemIndex)]`. -/
def lookupRate (tbl : PayerRates) (i : Nat) : Option ℚ :=
  match tbl with
  | [] => none
  | (k, v) :: rest => if k = i then some v else lookupRate rest i

/-- `getItemPrice(row, itemIndex)` from `app.js`.  `pt` is
`this.priceType` (an arbitrary string, since storage restore installs it
unvalidated), `rates` is `this.currentPayerRates` (`none` = JS `null`),
`idx` is the item index argument (`none` = JS `undefined`).  The result
`none` is the JS `null` meaning "uncontracted". -/
def getItemPrice (pt : String) (rates : Option PayerRates) (row : Row)
    (idx : Option Nat) : Option ℚ :=
  match pt == "payer", rates, idx with
  | true, some tbl, some i =>
    match lookupRate tbl i with
    | some rate => some rate
    | none => none
  | _, _, _ =>
    if pt = "discounted_cash" then
      some (jsOrQ row.dc (jsOrQ row.gross 0))
    else
      some (jsOrQ row.gross 0)

/-- A concrete row with a gross charge, used in examples. -/
def rowGross100 : Row :=
  { desc := "ASPIRIN 325MG TABS PO", gross := some 100, dc := none,
    codes := "CDM:123", drugU := none, drugT := "" }

/-- A concrete row with a defined discounted-cash price of zero. -/
def rowDcZero : Row :=
  { desc := "GAUZE PAD", gross := some 100, dc := some 0,
    codes := "RC:270", drugU := none, drugT := "" }

/-- The fixed drug package code → label table `DrugParser.DRUG_TYPE_MAP`. -/
def DRUG_TYPE_MAP : List (String × String) :=
  [("ME", "mg"), ("ML", "mL"), ("GM", "g"), ("UN", "units"), ("EA", "ea")]

/-- Association-list lookup for the string-keyed JS objects. -/
def lookupStr (tbl : List (String × String)) (k : String) : Option String :=
  match tbl with
  | [] => none
  | (k', v) :: rest => if k' = k then some v else lookupStr rest k

/-- `DRUG_TYPE_MAP[drugT] || drugT`: the mapped label, or the raw code
when unmapped (an empty mapped label would also be falsy and fall back,
though the table has none). -/
def typeLabel (t : String) : String :=
  match lookupStr DRUG_TYPE_MAP t with
  | some l => if l = "" then t else l
  | none => t

/-- The per-unit price record returned by `calculateUnitPrice`. -/
structure UnitPrice where
  pricePerUnit : ℚ
  unitLabel : String
  deriving Repr, DecidableEq

/-- `DrugParser.calculateUnitPrice(row, price)`: `null` unless the drug
unit count, the drug type and the price are all truthy and the unit count
exceeds 1, in which case the price is divided by the unit count and
labeled through `DRUG_TYPE_MAP`. -/
def calculateUnitPrice (row : Row) (price : Option ℚ) : Option UnitPrice :=
  match row.drugU, price with
  | some u, some p =>
    if u = 0 ∨ row.drugT = "" ∨ p = 0 then none
    else if 1 < u then some ⟨p / u, typeLabel row.drugT⟩
    else none
  | _, _ => none

/-- A drug row: package of 2 units of type `ME` (milligrams). -/
def rowDrug2ME : Row :=
  { desc := "HEPARIN 5000 UNITS/ML INJ SC", gross := some 40, dc := none,
    codes := "HCPCS:J1644", drugU := some 2, drugT := "ME" }

/-- One cart entry `{idx, qty}` from `app.js`. -/
structure Entry where
  idx : Nat
  qty : Int
  deriving Repr, DecidableEq

/-- The body of `addToCart` once the item exists: bump the quantity of
the first entry with this item index (`findIndex`), or append a fresh
entry with quantity 1. -/
def addEntry (cart : List Entry) (n : Nat) : List Entry :=
  match cart with
  | [] => [⟨n, 1⟩]
  | e :: rest =>
    if e.idx = n then { e with qty := e.qty + 1 } :: rest
    else e :: addEntry rest n

/-- `addToCart(itemIndex)`: a no-op when the catalog has no row at that
index (`!this.items[itemIndex]`), else `addEntry`. -/
def addToCart (size : Nat) (cart : List Entry) (n : Nat) : List Entry :=
  if n < size then addEntry cart n else cart

/-- `removeFromCart(cartIndex)`: `splice(cartIndex, 1)`. -/
def removeFromCart (cart : List Entry) (i : Nat) : List Entry :=
  cart.eraseIdx i

/-- `updateQuantity(cartIndex, delta)`: new quantity = old + delta; a
result ≤ 0 removes the entry, else it is stored in place (the item index
is untouched).  An out-of-range position leaves the cart unchanged (the
JS would throw before mutating). -/
def updateQuantity (cart : List Entry) (i : Nat) (delta : Int) :
    List Entry :=
  match cart[i]? with
  | none => cart
  | some e =>
    if e.qty + delta ≤ 0 then cart.eraseIdx i
    else cart.set i ⟨e.idx, e.qty + delta⟩

/-- A user action on the cart. -/
inductive CartOp where
  | add (n : Nat)
  | remove (i : Nat)
  | change (i : Nat) (delta : Int)
  deriving Repr, DecidableEq

/-- Apply one cart operation against a catalog of `size` rows. -/
def applyOp (size : Nat) (cart : List Entry) : CartOp → List Entry
  | .add n => addToCart size cart n
  | .remove i => removeFromCart cart i
  | .change i d => updateQuantity cart i d

/-- Run a sequence of cart operations from the empty cart. -/
def runOps (size : Nat) (ops : List CartOp) : List Entry :=
  ops.foldl (applyOp size) []

/-- The cart invariant: entries are unique by item index and every stored
quantity is at least 1. -/
def CartInv (cart : List Entry) : Prop :=
  (cart.map Entry.idx).Nodup ∧ ∀ e ∈ cart, 1 ≤ e.qty

/-- The result of `JSON.parse` on the stored `sjCart` string, classified
by what the restore code can observe: an array of entries, or some other
valid-JSON value (number, object, string, ...). -/
inductive CartJson where
  | arrVal (l : List Entry)
  | otherVal
  deriving Repr, DecidableEq

/-- The stored `sjCart` slot: absent (`getItem` returns `null`), a string
that is not valid JSON (`JSON.parse` throws), or a string parsing to a
JSON value. -/
inductive StoredCart where
  | absent
  | badSyntax
  | json (v : CartJson)
  deriving Repr, DecidableEq

/-- What `this.cart` holds after a restore: a proper entry list, or the
non-array value that `this.cart = JSON.parse(saved)` installed verbatim. -/
inductive CartSlot where
  | entries (l : List Entry)
  | corrupt
  deriving Repr, DecidableEq

/-- The application state touched by `loadCartFromStorage`. -/
structure AppState where
  cart : CartSlot
  priceType : String
  deriving Repr, DecidableEq

/-- The state at session start, before restore: empty cart, default
pricing mode `gross` (the constructor's initial values). -/
def defaultState : AppState := ⟨.entries [], "gross"⟩

/-- The `savedType` assignment: `if (savedType) this.priceType = savedType`
— any non-empty string is installed, unvalidated. -/
def applyType (stp : Option String) (s : AppState) : AppState :=
  match stp with
  | none => s
  | some t => if t = "" then s else { s with priceType := t }

/-- The body of the `try` block of `loadCartFromStorage`: assign the
parsed cart, then the saved price type.  `JSON.parse` of invalid syntax
raises (`Except.error`), aborting before the price type is read. -/
def loadBody (sc : StoredCart) (stp : Option String) (s : AppState) :
    Except Unit AppState :=
  match sc with
  | .badSyntax => .error ()
  | .absent => .ok (applyType stp s)
  | .json (.arrVal l) => .ok (applyType stp { s with cart := .entries l })
  | .json .otherVal => .ok (applyType stp { s with cart := .corrupt })

/-- `loadCartFromStorage`: run the body; the `catch` clause turns any
raise into `this.cart = []`, leaving everything else untouched. -/
def loadCartFromStorage (sc : StoredCart) (stp : Option String)
    (s : AppState) : AppState :=
  match loadBody sc stp s with
  | .ok s' => s'
  | .error _ => { s with cart := .entries [] }

/-! ### Text utilities for the drug-description parser and the search -/

/-- An ASCII digit, `\d`. -/
def isDigitC (c : Char) : Bool := 48 ≤ c.toNat && c.toNat ≤ 57

/-- A whitespace character, JS `\s` (restricted to the ASCII whitespace
occurring in the data: space, tab, newline, carriage return). -/
def isWsC (c : Char) : Bool :=
  c.toNat = 32 || c.toNat = 9 || c.toNat = 10 || c.toNat = 13

/-- An uppercase ASCII letter, the class `[A-Z]`. -/
def isUpperAZ (c : Char) : Bool := 65 ≤ c.toNat && c.toNat ≤ 90

/-- A lowercase ASCII letter. -/
def isLowerAZ (c : Char) : Bool := 97 ≤ c.toNat && c.toNat ≤ 122

/-- A regex word character `\w` = `[A-Za-z0-9_]`, for `\b` boundaries. -/
def isWordChar (c : Char) : Bool :=
  isUpperAZ c || isLowerAZ c || isDigitC c || c.toNat = 95

/-- `text.trim()` on a character list. -/
def trimL (s : List Char) : List Char :=
  ((s.dropWhile isWsC).reverse.dropWhile isWsC).reverse

/-- `text.toUpperCase()` on a character list. -/
def toUpperL (s : List Char) : List Char := s.map Char.toUpper

/-- `text.toLowerCase()` on a character list. -/
def toLowerL (s : List Char) : List Char := s.map Char.toLower

/-- The upper-cased, trimmed copy of the description that `parse` scans
(`description.toUpperCase().trim()`). -/
def prepText (s : String) : List Char := trimL (toUpperL s.toList)

/-- No char to the left, or a non-word char there: a `\b` boundary holds
before the current position. -/
def okBefore : Option Char → Bool
  | none => true
  | some c => !isWordChar c

/-- String end, or a non-word char next: a `\b` boundary holds after the
matched abbreviation. -/
def okAfter : List Char → Bool
  | [] => true
  | c :: _ => !isWordChar c

/-- The abbreviation occurs right here, with `\b` boundaries on both
sides (`prev` is the character to the left, if any). -/
def wwAt (a s : List Char) (prev : Option Char) : Bool :=
  okBefore prev && a.isPrefixOf s && okAfter (s.drop a.length)

/-- `new RegExp("\\b" + abbr + "\\b").test(desc)`: the abbreviation
occurs somewhere as a whole word. -/
def hasWW (a : List Char) : Option Char → List Char → Bool
  | prev, [] => wwAt a [] prev
  | prev, c :: rest => wwAt a (c :: rest) prev || hasWW a (some c) rest

/-- The ordered dosage-form table `DrugParser.FORMS` (JS object literal;
string keys preserve insertion order). -/
def FORMS : List (String × String) :=
  [("SOLN", "Solution"), ("SOLR", "Solution for Reconstitution"),
   ("SUSP", "Suspension"), ("TABS", "Tablet"), ("TAB", "Tablet"),
   ("TBEC", "Enteric Coated Tablet"), ("TBDP", "Disintegrating Tablet"),
   ("CAPS", "Capsule"), ("CAP", "Capsule"), ("CPEP", "Capsule ER"),
   ("CREA", "Cream"), ("OINT", "Ointment"), ("NEBU", "Nebulizer Solution"),
   ("INJ", "Injection"), ("PACK", "Packet"), ("SUPP", "Suppository"),
   ("GEL", "Gel"), ("LOTN", "Lotion"), ("PWDR", "Powder"),
   ("AERO", "Aerosol"), ("SOSY", "Syrup")]

/-- The ordered route table `DrugParser.ROUTES`. -/
def ROUTES : List (String × String) :=
  [("PO", "Oral"), ("IV", "Intravenous"), ("IM", "Intramuscular"),
   ("SC", "Subcutaneous"), ("SQ", "Subcutaneous"), ("TD", "Transdermal"),
   ("TOP", "Topical"), ("PR", "Rectal"), ("SL", "Sublingual"),
   ("INH", "Inhalation"), ("NA", "Nasal"), ("OP", "Ophthalmic"),
   ("OT", "Otic"), ("VAG", "Vaginal"), ("EX", "External"),
   ("RE", "Rectal")]

/-- The first-match scan over an ordered abbreviation table: the loop
`for (const [abbr, full] of Object.entries(T)) if (\b abbr \b) break`. -/
def firstHit (tbl : List (String × String)) (u : List Char) :
    Option (String × String) :=
  tbl.find? (fun p => hasWW p.1.toList none u)

/-- Greedy `\d+\.?\d*`: the captured number literal and what follows, or
`none` when there is no leading digit. -/
def numToken (s : List Char) : Option (List Char × List Char) :=
  let ds := s.takeWhile isDigitC
  let r := s.dropWhile isDigitC
  if ds.isEmpty then none
  else
    match r with
    | '.' :: r2 =>
      some (ds ++ '.' :: r2.takeWhile isDigitC, r2.dropWhile isDigitC)
    | _ => some (ds, r)

/-- Greedy `\d*\.?\d*` (never fails; may capture the empty string). -/
def numTokenOpt (s : List Char) : List Char × List Char :=
  let ds := s.takeWhile isDigitC
  let r := s.dropWhile isDigitC
  match r with
  | '.' :: r2 =>
    (ds ++ '.' :: r2.takeWhile isDigitC, r2.dropWhile isDigitC)
  | _ => (ds, r)

/-- Greedy `\s*`. -/
def skipWs (s : List Char) : List Char := s.dropWhile isWsC

/-- Match a literal alternative at the head of the text. -/
def litHere (lit s : List Char) : Option (List Char × List Char) :=
  if lit.isPrefixOf s then some (lit, s.drop lit.length) else none

/-- The candidates for the alternative `UNITS?`, greedy `S?` first. -/
def unitsCand (s : List Char) : List (List Char × List Char) :=
  match litHere ['U', 'N', 'I', 'T'] s with
  | none => []
  | some (_, r) =>
    match r with
    | 'S' :: r2 =>
      [(['U', 'N', 'I', 'T', 'S'], r2), (['U', 'N', 'I', 'T'], r)]
    | _ => [(['U', 'N', 'I', 'T'], r)]

/-- The candidates for the alternative `INT'?L?\s*UNITS?`: the optional
apostrophe, optional `L` and the whitespace are each forced (taking them
cannot lose a match), greedy `S?` yields up to two candidates. -/
def intlCand (s : List Char) : List (List Char × List Char) :=
  match litHere ['I', 'N', 'T'] s with
  | none => []
  | some (_, r1) =>
    let apo : List Char × List Char :=
      match r1 with
      | '\'' :: t => (['\''], t)
      | _ => ([], r1)
    let ell : List Char × List Char :=
      match apo.2 with
      | 'L' :: t => (['L'], t)
      | _ => ([], apo.2)
    let sp := ell.2.takeWhile isWsC
    let r3 := ell.2.dropWhile isWsC
    match litHere ['U', 'N', 'I', 'T'] r3 with
    | none => []
    | some (_, r4) =>
      let base := ['I', 'N', 'T'] ++ apo.1 ++ ell.1 ++ sp ++
        ['U', 'N', 'I', 'T']
      match r4 with
      | 'S' :: r5 => [(base ++ ['S'], r5), (base, r4)]
      | _ => [(base, r4)]

/-- All candidates, in regex alternation order, for the unit group
`(MG|MCG|G|MEQ|UNITS?|INT'?L?\s*UNITS?)` of the concentration pattern. -/
def unitAlts (s : List Char) : List (List Char × List Char) :=
  (litHere ['M', 'G'] s).toList ++ (litHere ['M', 'C', 'G'] s).toList ++
  (litHere ['G'] s).toList ++ (litHere ['M', 'E', 'Q'] s).toList ++
  unitsCand s ++ intlCand s

/-- First alternative of `(ML|L|HR|24HR|ACT|DOSE)` matching at the head
of the text (the group is last in the regex, so the first fit wins). -/
def perUnitHere (s : List Char) : Option (List Char) :=
  match litHere ['M', 'L'] s with
  | some (u, _) => some u
  | none =>
    match litHere ['L'] s with
    | some (u, _) => some u
    | none =>
      match litHere ['H', 'R'] s with
      | some (u, _) => some u
      | none =>
        match litHere ['2', '4', 'H', 'R'] s with
        | some (u, _) => some u
        | none =>
          match litHere ['A', 'C', 'T'] s with
          | some (u, _) => some u
          | none =>
            match litHere ['D', 'O', 'S', 'E'] s with
            | some (u, _) => some u
            | none => none

/-- The four capture groups of the concentration regex: number, unit,
divisor number (possibly empty) and optional per-unit. -/
structure ConcG where
  g1 : List Char
  g2 : List Char
  g3 : List Char
  g4 : Option (List Char)
  deriving Repr, DecidableEq

/-- The suffix `\s*\/\s*(\d*\.?\d*)\s*(ML|L|HR|24HR|ACT|DOSE)?` of the
concentration regex, after a chosen unit alternative. -/
def concRest (s : List Char) : Option (List Char × Option (List Char)) :=
  match skipWs s with
  | '/' :: s2 =>
    let p := numTokenOpt (skipWs s2)
    some (p.1, perUnitHere (skipWs p.2))
  | _ => none

/-- The whole concentration pattern anchored at this position: group 1,
whitespace, then the first unit alternative whose suffix also matches. -/
def concAt (s : List Char) : Option ConcG :=
  match numToken s with
  | none => none
  | some (g1, r1) =>
    (unitAlts (skipWs r1)).findSome? fun p =>
      (concRest p.2).map fun q => ⟨g1, p.1, q.1, q.2⟩

/-- `desc.match(concentrationRegex)`: scan left to right, first position
where the pattern matches wins. -/
def concScan : List Char → Option ConcG
  | [] => none
  | c :: rest =>
    match concAt (c :: rest) with
    | some g => some g
    | none => concScan rest

/-- The plain strength pattern `(\d+\.?\d*)\s*(MG|MCG|G|MEQ|UNITS?|%)`
anchored at this position (nothing follows the unit group, so the first
alternative fitting at the head wins). -/
def strengthAt (s : List Char) : Option (List Char × List Char) :=
  match numToken s with
  | none => none
  | some (g1, r1) =>
    let r2 := skipWs r1
    match litHere ['M', 'G'] r2 with
    | some (u, _) => some (g1, u)
    | none =>
      match litHere ['M', 'C', 'G'] r2 with
      | some (u, _) => some (g1, u)
      | none =>
        match litHere ['G'] r2 with
        | some (u, _) => some (g1, u)
        | none =>
          match litHere ['M', 'E', 'Q'] r2 with
          | some (u, _) => some (g1, u)
          | none =>
            match litHere ['U', 'N', 'I', 'T', 'S'] r2 with
            | some (u, _) => some (g1, u)
            | none =>
              match litHere ['U', 'N', 'I', 'T'] r2 with
              | some (u, _) => some (g1, u)
              | none =>
                match litHere ['%'] r2 with
                | some (u, _) => some (g1, u)
                | none => none

/-- `desc.match(strengthRegex)`: leftmost match. -/
def strengthScan : List Char → Option (List Char × List Char)
  | [] => none
  | c :: rest =>
    match strengthAt (c :: rest) with
    | some g => some g
    | none => strengthScan rest

/-- Numeric value of a digit string. -/
def digitsVal (s : List Char) : Nat :=
  s.foldl (fun a c => 10 * a + (c.toNat - 48)) 0

/-- `parseFloat` on a token drawn from `\d*\.?\d*`: `none` models `NaN`
(no digits at all); otherwise the exact rational value.  Float64
rounding is abstracted to exact rational arithmetic. -/
def parseDec (s : List Char) : Option ℚ :=
  let ip := s.takeWhile isDigitC
  let r := s.dropWhile isDigitC
  let fp := match r with
    | '.' :: t => t.takeWhile isDigitC
    | _ => []
  if ip.isEmpty && fp.isEmpty then none
  else some ((digitsVal ip : ℚ) + (digitsVal fp : ℚ) / ((10 : ℚ) ^ fp.length))

/-- Strip leading zeros of an integer-part digit string, keeping one
digit ("000" → "0"). -/
def stripLead (s : List Char) : List Char :=
  match s.dropWhile (fun c => c = '0') with
  | [] => ['0']
  | r => r

/-- The canonical decimal rendering `${parseFloat(tok)}` of a number
token: leading zeros dropped, trailing fractional zeros and a bare
trailing dot dropped, an empty integer part shown as `0`. -/
def normalizeDec (s : List Char) : List Char :=
  let ip := s.takeWhile isDigitC
  let r := s.dropWhile isDigitC
  let fp := match r with
    | '.' :: t => t.takeWhile isDigitC
    | _ => []
  let fp' := (fp.reverse.dropWhile (fun c => c = '0')).reverse
  if fp'.isEmpty then stripLead ip
  else stripLead ip ++ '.' :: fp'

/-- The span (length) of the first-match pattern `INT'?L?\s*` anchored at
this position, or `none`. -/
def intlSpanAt (s : List Char) : Option Nat :=
  match litHere ['I', 'N', 'T'] s with
  | none => none
  | some (_, r1) =>
    let p1 : Nat × List Char :=
      match r1 with
      | '\'' :: t => (1, t)
      | _ => (0, r1)
    let p2 : Nat × List Char :=
      match p1.2 with
      | 'L' :: t => (1, t)
      | _ => (0, p1.2)
    some (3 + p1.1 + p2.1 + (p2.2.takeWhile isWsC).length)

/-- `unit.replace(/INT'?L?\s*/i, '')`: remove the first occurrence of
the pattern, keep everything else. -/
def replaceIntl : List Char → List Char
  | [] => []
  | c :: rest =>
    match intlSpanAt (c :: rest) with
    | some n => (c :: rest).drop n
    | none => c :: replaceIntl rest

/-- The canonical concentration display string
`${amount} ${unit}/${perAmount > 1 ? perAmount : ''}${perUnit}` built
from the regex groups (the unit is INTL-stripped and upper-cased, the
divisor defaults to 1 — hence hidden — when its group is empty, the
per-unit defaults to `ML`). -/
def concString (g : ConcG) : List Char :=
  let unit := toUpperL (replaceIntl g.g2)
  let divisor : List Char :=
    match parseDec g.g3 with
    | some q => if 1 < q then normalizeDec g.g3 else []
    | none => []
  let perUnit := match g.g4 with
    | some pu => toUpperL pu
    | none => ['M', 'L']
  normalizeDec g.g1 ++ ' ' :: unit ++ '/' :: (divisor ++ perUnit)

/-- `(?:\s+\d|$)` holds at this suffix: end of text, or at least one
whitespace char followed immediately by a digit. -/
def nameCont (s : List Char) : Bool :=
  match s with
  | [] => true
  | c :: _ =>
    isWsC c &&
      (match s.dropWhile isWsC with
       | d :: _ => isDigitC d
       | [] => false)

/-- The class `[A-Z\s\-]` of the name capture's tail. -/
def nameClass (c : Char) : Bool := isUpperAZ c || isWsC c || c = '-'

/-- Lazy extension step of `([A-Z][A-Z\s\-]+?)`: stop at the first
position where the continuation matches; extend one class character at a
time; fail if extension is impossible. -/
def nameGo (taken : List Char) : List Char → Option (List Char)
  | [] => if nameCont [] then some taken.reverse else none
  | c :: rest =>
    if nameCont (c :: rest) then some taken.reverse
    else if nameClass c then nameGo (c :: taken) rest
    else none

/-- `desc.match(/^([A-Z][A-Z\s\-]+?)(?:\s+\d|$)/)`, returning the raw
capture group. -/
def nameMatch (u : List Char) : Option (List Char) :=
  match u with
  | c0 :: c1 :: rest =>
    if isUpperAZ c0 && nameClass c1 then nameGo [c1, c0] rest else none
  | _ => none

/-- Accumulator loop for `split(/\s+/)`: `cur` is the reversed current
field, `acc` the reversed finished fields. -/
def splitWsGo (cur : List Char) (acc : List (List Char)) :
    List Char → List (List Char)
  | [] => (cur.reverse :: acc).reverse
  | c :: rest =>
    if isWsC c then
      if cur.isEmpty then splitWsGo [] acc rest
      else splitWsGo [] (cur.reverse :: acc) rest
    else splitWsGo (c :: cur) acc rest

/-- JS `text.split(/\s+/)` for the whitespace-trimmed inputs used here
(no leading separator): the fields are the maximal non-whitespace runs,
and the empty text yields one empty field. -/
def splitWsL (s : List Char) : List (List Char) := splitWsGo [] [] s

/-- `tokens.slice(0, 2).join(' ')`. -/
def joinSp (ts : List (List Char)) : List Char :=
  match ts with
  | [] => []
  | [t] => t
  | t :: rest => t ++ ' ' :: joinSp rest

/-- The name field: the anchored lazy capture, trimmed; else the first
two whitespace-delimited tokens of the upper-cased text. -/
def nameOf (u : List Char) : List Char :=
  match nameMatch u with
  | some cap => trimL cap
  | none => joinSp ((splitWsL u).take 2)

/-- The structured result of `DrugParser.parse`. -/
structure Parsed where
  name : String
  strength : Option ℚ
  strengthUnit : Option String
  concentration : Option String
  route : Option String
  routeFull : Option String
  form : Option String
  formFull : Option String
  isConcentration : Bool
  deriving Repr, DecidableEq

/-- `DrugParser.parse(description)`: `null` for an empty description;
otherwise scan the ordered form and route tables for the first whole-word
hit, try the concentration pattern, fall back to the plain strength
pattern, and extract the name. -/
def parseDrug (description : String) : Option Parsed :=
  if description = "" then none
  else
    let u := prepText description
    let fm := firstHit FORMS u
    let rt := firstHit ROUTES u
    match concScan u with
    | some g =>
      some { name := (nameOf u).asString,
             strength := parseDec g.g1,
             strengthUnit := some (toUpperL (replaceIntl g.g2)).asString,
             concentration := some (concString g).asString,
             route := rt.map Prod.fst, routeFull := rt.map Prod.snd,
             form := fm.map Prod.fst, formFull := fm.map Prod.snd,
             isConcentration := true }
    | none =>
      match strengthScan u with
      | some p =>
        some { name := (nameOf u).asString,
               strength := parseDec p.1,
               strengthUnit := some (toUpperL p.2).asString,
               concentration := none,
               route := rt.map Prod.fst, routeFull := rt.map Prod.snd,
               form := fm.map Prod.fst, formFull := fm.map Prod.snd,
               isConcentration := false }
      | none =>
        some { name := (nameOf u).asString,
               strength := none, strengthUnit := none,
               concentration := none,
               route := rt.map Prod.fst, routeFull := rt.map Prod.snd,
               form := fm.map Prod.fst, formFull := fm.map Prod.snd,
               isConcentration := false }

/-- The spec's reading of the name rule, modelled from its words: the
leading run of letters/spaces/hyphens (stopped by the first digit or any
other character), trimmed; `none` when the run is empty. -/
def specLeadingName (u : List Char) : Option (List Char) :=
  let run := u.takeWhile nameClass
  if run.isEmpty then none else some (trimL run)

/-- The last character is not whitespace (vacuously true of the empty
list). -/
def noTrailWs (l : List Char) : Bool :=
  match l.getLast? with
  | some c => !isWsC c
  | none => true

/-- The character standing immediately before the match position: the
last of `pre` when nonempty, else the character left of the scan start. -/
def lastOr (prev : Option Char) : List Char → Option Char
  | [] => prev
  | c :: rest => lastOr (some c) rest

/-- JS `haystack.includes(needle)`: substring containment (an empty
needle is always contained). -/
def containsSub (needle : List Char) : List Char → Bool
  | [] => needle.isPrefixOf []
  | c :: rest => needle.isPrefixOf (c :: rest) || containsSub needle rest

/-- `searchText = desc.toLowerCase() + ' ' + codes.toLowerCase()` for one
catalog row. -/
def searchText (row : Row) : List Char :=
  toLowerL row.desc.toList ++ ' ' :: toLowerL row.codes.toList

/-- `terms.every(t => searchText.includes(t))`. -/
def rowMatches (terms : List (List Char)) (row : Row) : Bool :=
  terms.all (fun t => containsSub t (searchText row))

/-- What `performSearch` hands to the presentation layer: the explicit
prompt state for sub-2-character queries, the no-data state for an empty
catalog, or the result rows with their catalog indices. -/
inductive SearchOutcome where
  | prompt
  | noData
  | results (rs : List (Nat × Row))
  deriving Repr, DecidableEq

/-- The scan loop of `performSearch`: walk the catalog in index order,
collect matches, and break as soon as 100 have accumulated. -/
def searchLoop (terms : List (List Char)) :
    List Row → Nat → List (Nat × Row) → List (Nat × Row)
  | [], _, acc => acc.reverse
  | row :: rest, i, acc =>
    if rowMatches terms row then
      if 100 ≤ ((i, row) :: acc).length then ((i, row) :: acc).reverse
      else searchLoop terms rest (i + 1) ((i, row) :: acc)
    else searchLoop terms rest (i + 1) acc

/-- `performSearch()`: trim and lower-case the query, demand at least 2
characters (else the prompt state), demand a loaded catalog (else the
no-data state), split the query on whitespace and run the capped scan. -/
def performSearch (rawQuery : String) (items : List Row) : SearchOutcome :=
  let query := toLowerL (trimL rawQuery.toList)
  if query.length < 2 then .prompt
  else if items.isEmpty then .noData
  else .results (searchLoop (splitWsL query) items 0 [])

/-- C1: in PAYER mode with a loaded rate table, the resolver returns the
table entry for the item index whenever the key is present — including a
contracted rate of zero — and returns the uncontracted marker (`none`)
when the key is absent; the item's gross charge is never consulted, since
the result does not depend on the row at all. -/
theorem payer_mode_lookup_spec (row : Row) (i : Nat) (tbl : PayerRates) :
    (∀ q : ℚ, lookupRate tbl i = some q →
      getItemPrice "payer" (some tbl) row (some i) = some q) ∧
    (lookupRate tbl i = none →
      getItemPrice "payer" (some tbl) row (some i) = none) := by
  constructor
  · intro q hq
    simp [getItemPrice, hq]
  · intro hq
    simp [getItemPrice, hq]

/-- Witness for C1: a table contracting item 3 at rate zero.  Item 3
resolves to `0` (not to the gross charge `100`), and the absent item 7
resolves to the uncontracted marker even though the gross charge is
defined. -/
theorem payer_mode_lookup_spec_witness :
    getItemPrice "payer" (some [(3, 0)]) rowGross100 (some 3) = some 0 ∧
    getItemPrice "payer" (some [(3, 0)]) rowGross100 (some 7) = none :=
  ⟨(payer_mode_lookup_spec rowGross100 3 [(3, 0)]).1 0 rfl,
   (payer_mode_lookup_spec rowGross100 7 [(3, 0)]).2 rfl⟩

/-- C2 counterexample: the claim says DISCOUNTED_CASH mode returns a
*defined* `discountedCash` of zero.  The code computes
`row[I.DC] || row[I.GROSS] || 0`, and JavaScript `||` treats the number
`0` as falsy, so a row with `dc = 0` and `gross = 100` resolves to `100`,
not to the contracted `0`. -/
theorem dc_zero_falls_to_gross_cex :
    rowDcZero.dc = some 0 ∧
    getItemPrice "discounted_cash" none rowDcZero (some 0) = some 100 ∧
    (0 : ℚ) ≠ 100 := by
  refine ⟨rfl, rfl, by norm_num⟩

/-- C2 amended: DISCOUNTED_CASH mode returns `discountedCash` whenever it
is defined *and nonzero*; when `discountedCash` is undefined or zero it
falls through to `grossCharge` whenever that is defined and nonzero, else
to `0`.  In particular, with `discountedCash` undefined and
`grossCharge = 100`, the resolver returns `100`. -/
theorem dc_mode_truthy_chain (row : Row) (rates : Option PayerRates)
    (idx : Option Nat) :
    (∀ d : ℚ, row.dc = some d → d ≠ 0 →
      getItemPrice "discounted_cash" rates row idx = some d) ∧
    ((row.dc = none ∨ row.dc = some 0) → ∀ g : ℚ, row.gross = some g →
      g ≠ 0 → getItemPrice "discounted_cash" rates row idx = some g) ∧
    ((row.dc = none ∨ row.dc = some 0) →
      (row.gross = none ∨ row.gross = some 0) →
      getItemPrice "discounted_cash" rates row idx = some 0) := by
  refine ⟨?_, ?_, ?_⟩
  · intro d hd hdne
    cases rates <;> cases idx <;>
      simp [getItemPrice, jsOrQ, hd, hdne]
  · rintro (hd | hd) g hg hgne <;> cases rates <;> cases idx <;>
      simp [getItemPrice, jsOrQ, hd, hg, hgne]
  · rintro (hd | hd) (hg | hg) <;> cases rates <;> cases idx <;>
      simp [getItemPrice, jsOrQ, hd, hg]

/-- Witness for C2 (amended): the spec's own test vector — `dc` undefined,
`gross = 100` — resolves to `100`, and the zero-`dc` row falls through to
its gross charge. -/
theorem dc_mode_truthy_chain_witness :
    getItemPrice "discounted_cash" none rowGross100 (some 0) = some 100 ∧
    getItemPrice "discounted_cash" none rowDcZero (some 1) = some 100 :=
  ⟨(dc_mode_truthy_chain rowGross100 none (some 0)).2.1 (Or.inl rfl) 100 rfl
     (by norm_num),
   (dc_mode_truthy_chain rowDcZero none (some 1)).2.1 (Or.inr rfl) 100 rfl
     (by norm_num)⟩

/-- C10: in PAYER mode with *no* loaded rate table
(`currentPayerRates = null`), the `currentPayerRates` guard fails, the
`discounted_cash` test fails, and the resolver falls through to the gross
branch: it returns `grossCharge` when defined, else `0`, and never the
uncontracted marker. -/
theorem payer_null_rates_gross_fallback (row : Row) (i : Nat) :
    (∀ g : ℚ, row.gross = some g → g ≠ 0 →
      getItemPrice "payer" none row (some i) = some g) ∧
    ((row.gross = none ∨ row.gross = some 0) →
      getItemPrice "payer" none row (some i) = some 0) ∧
    getItemPrice "payer" none row (some i) ≠ none := by
  refine ⟨?_, ?_, ?_⟩
  · intro g hg hgne
    simp [getItemPrice, jsOrQ, hg, hgne]
  · rintro (hg | hg) <;> simp [getItemPrice, jsOrQ, hg]
  · cases hg : row.gross with
    | none => simp [getItemPrice, jsOrQ, hg]
    | some g =>
      by_cases hg0 : g = 0 <;> simp [getItemPrice, jsOrQ, hg, hg0]

/-- Witness for C10: with a null rate table in payer mode, the item with
`gross = 100` resolves to `100` (not uncontracted). -/
theorem payer_null_rates_gross_fallback_witness :
    getItemPrice "payer" none rowGross100 (some 3) = some 100 :=
  (payer_null_rates_gross_fallback rowGross100 3).1 100 rfl (by norm_num)

/-- C4 counterexample: the claim promises a per-unit price *exactly when*
`unitsPerPackage > 1`, for every resolved price.  But the code guards
`!price`, so a resolved price of `0` yields no per-unit price even though
the package has 2 > 1 units (the claim would demand `0/2 = 0` labeled
`mg`). -/
theorem unit_price_zero_price_cex :
    rowDrug2ME.drugU = some 2 ∧ (1 : ℚ) < 2 ∧
    calculateUnitPrice rowDrug2ME (some 0) = none := by
  refine ⟨rfl, by norm_num, rfl⟩

/-- C4 amended: for an item whose drug package has a nonzero unit count
and a nonempty unit type code, and for a *truthy* resolved price (a
nonzero number — the code's `!price` guard drops `0` and `null` prices),
`calculateUnitPrice` returns `price / unitsPerPackage` labeled through
the fixed code→label table (unrecognized codes pass through raw) exactly
when `unitsPerPackage > 1`, and no per-unit price otherwise.  The table
maps ME→mg, ML→mL, GM→g, UN→units, EA→ea. -/
theorem unit_price_gt_one_amended :
    (∀ (row : Row) (u p : ℚ), row.drugU = some u → u ≠ 0 →
      row.drugT ≠ "" → p ≠ 0 →
      calculateUnitPrice row (some p) =
        if 1 < u then some ⟨p / u, typeLabel row.drugT⟩ else none) ∧
    (typeLabel "ME" = "mg" ∧ typeLabel "ML" = "mL" ∧ typeLabel "GM" = "g" ∧
      typeLabel "UN" = "units" ∧ typeLabel "EA" = "ea") ∧
    (∀ t : String, lookupStr DRUG_TYPE_MAP t = none → typeLabel t = t) := by
  refine ⟨?_, ⟨rfl, rfl, rfl, rfl, rfl⟩, ?_⟩
  · intro row u p hu hune ht hpne
    simp [calculateUnitPrice, hu, hune, ht, hpne]
  · intro t ht
    simp [typeLabel, ht]

/-- Witness for C4 (amended): the 2-unit `ME` package at price 40 gives
20 per mg; the same package at unit count 1 would give nothing. -/
theorem unit_price_gt_one_amended_witness :
    calculateUnitPrice rowDrug2ME (some 40) =
      some ⟨20, "mg"⟩ ∧
    calculateUnitPrice
      { rowDrug2ME with drugU := some 1 } (some 40) = none := by
  constructor
  · have h := unit_price_gt_one_amended.1 rowDrug2ME 2 40 rfl
      (by norm_num) (by decide) (by norm_num)
    rw [h]
    have hlbl : typeLabel rowDrug2ME.drugT = "mg" := rfl
    rw [hlbl]
    norm_num [UnitPrice.mk.injEq]
  · have h := unit_price_gt_one_amended.1
      { rowDrug2ME with drugU := some 1 } 1 40 rfl
      (by norm_num) (by decide) (by norm_num)
    rw [h]
    norm_num

theorem addEntry_map_idx (cart : List Entry) (n : Nat) :
    (addEntry cart n).map Entry.idx =
      if n ∈ cart.map Entry.idx then cart.map Entry.idx
      else cart.map Entry.idx ++ [n] := by
  induction cart with
  | nil => simp [addEntry]
  | cons e rest ih =>
    by_cases h : e.idx = n
    · simp [addEntry, h]
    · have hne : n ≠ e.idx := fun hn => h hn.symm
      simp [addEntry, h, ih, hne]
      split <;> simp

theorem addEntry_qty (cart : List Entry) (n : Nat)
    (h : ∀ e ∈ cart, 1 ≤ e.qty) :
    ∀ e ∈ addEntry cart n, 1 ≤ e.qty := by
  induction cart with
  | nil =>
    intro e he
    simp [addEntry] at he
    simp [he]
  | cons a rest ih =>
    intro e he
    by_cases ha : a.idx = n
    · simp [addEntry, ha] at he
      rcases he with he | he
      · have h1 := h a (by simp)
        rw [he]
        simp
        omega
      · exact h e (by simp [he])
    · simp [addEntry, ha] at he
      rcases he with he | he
      · rw [he]
        exact h a (by simp)
      · exact ih (fun e' he' => h e' (by simp [he'])) e he

theorem set_map_idx (cart : List Entry) :
    ∀ (i : Nat) (e : Entry) (q : Int), cart[i]? = some e →
      (cart.set i ⟨e.idx, q⟩).map Entry.idx = cart.map Entry.idx := by
  induction cart with
  | nil => intro i e q h; simp at h
  | cons a rest ih =>
    intro i e q h
    cases i with
    | zero =>
      simp only [List.getElem?_cons_zero, Option.some.injEq] at h
      subst h
      simp
    | succ j =>
      simp only [List.getElem?_cons_succ] at h
      simp only [List.set_cons_succ, List.map_cons]
      rw [ih j e q h]

theorem eraseIdx_inv (cart : List Entry) (i : Nat) (h : CartInv cart) :
    CartInv (cart.eraseIdx i) := by
  have hsub : List.Sublist (cart.eraseIdx i) cart :=
    List.eraseIdx_sublist cart i
  exact ⟨List.Nodup.sublist (hsub.map Entry.idx) h.1,
    fun e he => h.2 e (List.Sublist.mem he hsub)⟩

theorem applyOp_inv (size : Nat) (cart : List Entry) (op : CartOp)
    (h : CartInv cart) : CartInv (applyOp size cart op) := by
  cases op with
  | add n =>
    simp only [applyOp, addToCart]
    split
    · constructor
      · rw [addEntry_map_idx]
        split
        · exact h.1
        · rename_i hnotin
          simp [List.nodup_append, hnotin, h.1]
      · exact addEntry_qty cart n h.2
    · exact h
  | remove i => exact eraseIdx_inv cart i h
  | change i d =>
    cases hg : cart[i]? with
    | none => simpa [applyOp, updateQuantity, hg] using h
    | some e =>
      by_cases hq : e.qty + d ≤ 0
      · simpa [applyOp, updateQuantity, hg, hq] using eraseIdx_inv cart i h
      · have hgoal :
            applyOp size cart (.change i d) =
              cart.set i ⟨e.idx, e.qty + d⟩ := by
          simp [applyOp, updateQuantity, hg, hq]
        rw [hgoal]
        constructor
        · rw [set_map_idx cart i e _ hg]
          exact h.1
        · intro e' he'
          rcases List.mem_or_eq_of_mem_set he' with he' | he'
          · exact h.2 e' he'
          · rw [he']
            simp
            omega

theorem foldl_inv (size : Nat) (ops : List CartOp) :
    ∀ cart : List Entry, CartInv cart →
      CartInv (ops.foldl (applyOp size) cart) := by
  induction ops with
  | nil => intro cart h; exact h
  | cons op rest ih =>
    intro cart h
    exact ih (applyOp size cart op) (applyOp_inv size cart op h)

/-- C5: after every finite sequence of cart operations from the empty
cart, no two entries share an item index and every stored quantity is at
least 1.  In particular `add 5` twice yields the single entry
`{idx := 5, qty := 2}`, and a quantity change that would drop the
quantity to 0 removes the entry instead of storing it. -/
theorem cart_invariant_ops :
    (∀ (size : Nat) (ops : List CartOp), CartInv (runOps size ops)) ∧
    runOps 6 [.add 5, .add 5] = [⟨5, 2⟩] ∧
    runOps 6 [.add 5, .add 5, .change 0 (-2)] = [] := by
  refine ⟨?_, by decide, by decide⟩
  intro size ops
  exact foldl_inv size ops [] ⟨by simp, by simp⟩

/-- C6 counterexample: stored content that is valid JSON but not an entry
array — e.g. the string `"42"` — is *malformed stored data*, yet the
restore does not reset to an empty cart: `this.cart = JSON.parse(saved)`
installs the non-array value verbatim.  Likewise a malformed stored mode
string is installed unvalidated instead of resetting to the default. -/
theorem load_storage_non_array_cex :
    loadCartFromStorage (.json .otherVal) none defaultState =
      ⟨.corrupt, "gross"⟩ ∧
    CartSlot.corrupt ≠ CartSlot.entries [] ∧
    (loadCartFromStorage .absent (some "bogus") defaultState).priceType =
      "bogus" ∧
    "bogus" ≠ "gross" := by
  refine ⟨rfl, by simp, rfl, by decide⟩

/-- C6 amended: the restore routine itself never propagates an error —
the only raising step is `JSON.parse` on syntactically invalid stored
text, and the `catch` turns that raise into an empty cart while leaving
the pricing mode untouched, so at session start (default state) a
syntax-corrupt store yields exactly the defaults.  However, stored text
that parses as JSON without being an entry array is installed verbatim
(not reset), and a stored mode string is installed without validation. -/
theorem load_storage_amended :
    (∀ (stp : Option String) (s : AppState),
      loadBody .badSyntax stp s = .error () ∧
      loadCartFromStorage .badSyntax stp s = { s with cart := .entries [] }) ∧
    (∀ stp : Option String,
      loadCartFromStorage .badSyntax stp defaultState = defaultState) ∧
    (∀ (l : List Entry) (s : AppState),
      loadCartFromStorage (.json (.arrVal l)) none s =
        { s with cart := .entries l }) := by
  refine ⟨fun stp s => ⟨rfl, rfl⟩, fun stp => rfl, fun l s => rfl⟩

/-- Witness for C6 (amended): a syntax-corrupt store restored at session
start leaves exactly the default state, and a well-formed stored cart of
one entry is restored as-is. -/
theorem load_storage_amended_witness :
    loadCartFromStorage .badSyntax (some "payer") defaultState =
      defaultState ∧
    loadCartFromStorage (.json (.arrVal [⟨5, 2⟩])) none defaultState =
      ⟨.entries [⟨5, 2⟩], "gross"⟩ :=
  ⟨(load_storage_amended).2.1 (some "payer"),
   (load_storage_amended).2.2 [⟨5, 2⟩] defaultState⟩

theorem parseDec_5000 : parseDec ['5', '0', '0', '0'] = some 5000 := by
  have h : parseDec ['5', '0', '0', '0'] =
      some (((5000 : ℕ) : ℚ) + ((0 : ℕ) : ℚ) / (10 : ℚ) ^ (0 : ℕ)) := rfl
  rw [h]
  norm_num

/-- C7: whenever the concentration pattern matches the prepared
description, the parser marks `isConcentration`, records the strength
amount and the unit with any `INTL`/`INT'L` prefix stripped, and builds
the canonical display string: amount, a space, the stripped unit, a
slash, the divisor digits only when the divisor value exceeds 1 (the
divisor defaults to 1 — hence hidden — when its group is empty or
unparseable), then the per-unit, defaulted to `ML` when absent.  In
particular `parse("HEPARIN 5000 UNITS/ML INJ SC")` yields concentration
`"5000 UNITS/ML"`, `isConcentration = true`, strength 5000 with unit
`"UNITS"`, form `"Injection"` and route `"Subcutaneous"`. -/
theorem concentration_parse_spec :
    (∀ (d : String) (g : ConcG), d ≠ "" →
      concScan (prepText d) = some g →
      parseDrug d = some
        { name := (nameOf (prepText d)).asString,
          strength := parseDec g.g1,
          strengthUnit := some (toUpperL (replaceIntl g.g2)).asString,
          concentration := some
            (normalizeDec g.g1 ++ ' ' :: toUpperL (replaceIntl g.g2) ++
              '/' ::
                ((match parseDec g.g3 with
                  | some q => if 1 < q then normalizeDec g.g3 else []
                  | none => []) ++
                 (match g.g4 with
                  | some pu => toUpperL pu
                  | none => ['M', 'L']))).asString,
          route := (firstHit ROUTES (prepText d)).map Prod.fst,
          routeFull := (firstHit ROUTES (prepText d)).map Prod.snd,
          form := (firstHit FORMS (prepText d)).map Prod.fst,
          formFull := (firstHit FORMS (prepText d)).map Prod.snd,
          isConcentration := true }) ∧
    parseDrug "HEPARIN 5000 UNITS/ML INJ SC" = some
      { name := "HEPARIN", strength := some 5000,
        strengthUnit := some "UNITS",
        concentration := some "5000 UNITS/ML",
        route := some "SC", routeFull := some "Subcutaneous",
        form := some "INJ", formFull := some "Injection",
        isConcentration := true } := by
  have hgen : ∀ (d : String) (g : ConcG), d ≠ "" →
      concScan (prepText d) = some g →
      parseDrug d = some
        { name := (nameOf (prepText d)).asString,
          strength := parseDec g.g1,
          strengthUnit := some (toUpperL (replaceIntl g.g2)).asString,
          concentration := some (concString g).asString,
          route := (firstHit ROUTES (prepText d)).map Prod.fst,
          routeFull := (firstHit ROUTES (prepText d)).map Prod.snd,
          form := (firstHit FORMS (prepText d)).map Prod.fst,
          formFull := (firstHit FORMS (prepText d)).map Prod.snd,
          isConcentration := true } := by
    intro d g hne h
    simp [parseDrug, hne, h]
  constructor
  · intro d g hne h
    rw [hgen d g hne h]
    simp [concString]
  · have h := hgen "HEPARIN 5000 UNITS/ML INJ SC"
      ⟨['5', '0', '0', '0'], ['U', 'N', 'I', 'T', 'S'], [],
        some ['M', 'L']⟩ (by decide) rfl
    rw [h, parseDec_5000]
    rfl

/-- Witness for C7: the general conjunct applied to the HEPARIN
description, its concentration groups discharged by computation. -/
theorem concentration_parse_spec_witness :
    parseDrug "HEPARIN 5000 UNITS/ML INJ SC" = some
      { name := (nameOf (prepText "HEPARIN 5000 UNITS/ML INJ SC")).asString,
        strength := parseDec ['5', '0', '0', '0'],
        strengthUnit := some (toUpperL (replaceIntl
          ['U', 'N', 'I', 'T', 'S'])).asString,
        concentration := some
          (normalizeDec ['5', '0', '0', '0'] ++ ' ' ::
            toUpperL (replaceIntl ['U', 'N', 'I', 'T', 'S']) ++
            '/' ::
              ((match parseDec [] with
                | some q => if 1 < q then normalizeDec [] else []
                | none => []) ++
               (match some ['M', 'L'] with
                | some pu => toUpperL pu
                | none => ['M', 'L']))).asString,
        route := (firstHit ROUTES
          (prepText "HEPARIN 5000 UNITS/ML INJ SC")).map Prod.fst,
        routeFull := (firstHit ROUTES
          (prepText "HEPARIN 5000 UNITS/ML INJ SC")).map Prod.snd,
        form := (firstHit FORMS
          (prepText "HEPARIN 5000 UNITS/ML INJ SC")).map Prod.fst,
        formFull := (firstHit FORMS
          (prepText "HEPARIN 5000 UNITS/ML INJ SC")).map Prod.snd,
        isConcentration := true } :=
  concentration_parse_spec.1 "HEPARIN 5000 UNITS/ML INJ SC"
    ⟨['5', '0', '0', '0'], ['U', 'N', 'I', 'T', 'S'], [], some ['M', 'L']⟩
    (by decide) rfl

/-- C9 counterexample: on `"AB5 X"` a leading run of letters — `"AB"` —
exists before the first digit run, so the claim demands the name `"AB"`.
But the regex `^([A-Z][A-Z\s\-]+?)(?:\s+\d|$)` requires the digit to be
preceded by whitespace, so it fails here and the code falls back to the
first two whitespace-delimited tokens, `"AB5 X"`. -/
theorem name_rule_cex :
    specLeadingName (prepText "AB5 X") = some ['A', 'B'] ∧
    (parseDrug "AB5 X").map Parsed.name = some "AB5 X" ∧
    ("AB5 X" : String) ≠ "AB" := by
  refine ⟨rfl, by decide, by decide⟩

theorem noTrailWs_spec (l : List Char) (h : noTrailWs l = true) :
    ∀ cl, l.getLast? = some cl → isWsC cl = false := by
  intro cl hc
  unfold noTrailWs at h
  rw [hc] at h
  simpa using h

theorem nameClass_not_digit (c : Char) (h1 : nameClass c = true)
    (h2 : isWsC c = false) : isDigitC c = false := by
  have h1' : (isUpperAZ c = true ∨ isWsC c = true) ∨ c = '-' := by
    simpa [nameClass] using h1
  rcases h1' with (h | h) | h
  · have h' : 65 ≤ c.toNat ∧ c.toNat ≤ 90 := by simpa [isUpperAZ] using h
    simp [isDigitC]
    omega
  · rw [h] at h2
    cases h2
  · subst h
    rfl

theorem isUpperAZ_not_ws (c : Char) (h : isUpperAZ c = true) :
    isWsC c = false := by
  simp [isUpperAZ, isWsC] at *
  omega

theorem isDigitC_not_ws (c : Char) (h : isDigitC c = true) :
    isWsC c = false := by
  simp [isDigitC, isWsC] at *
  omega

theorem dropWhile_head_not_digit (tail : List Char) :
    ∀ b : List Char, b ≠ [] → (∀ c ∈ b, nameClass c = true) →
      (∀ cl, b.getLast? = some cl → isWsC cl = false) →
      ∃ h r, (b ++ tail).dropWhile isWsC = h :: r ∧ isDigitC h = false := by
  intro b
  induction b with
  | nil => intro hb; exact absurd rfl hb
  | cons c b' ih =>
    intro _ hcl hlast
    by_cases hc : isWsC c = true
    · cases b' with
      | nil =>
        have := hlast c rfl
        rw [this] at hc
        cases hc
      | cons c2 b'' =>
        have hlast' : ∀ cl, (c2 :: b'').getLast? = some cl →
            isWsC cl = false := by
          intro cl hcl2
          exact hlast cl (by rw [List.getLast?_cons_cons]; exact hcl2)
        have hcl' : ∀ x ∈ c2 :: b'', nameClass x = true :=
          fun x hx => hcl x (by simp [hx])
        obtain ⟨h, r, hd, hdig⟩ := ih (by simp) hcl' hlast'
        refine ⟨h, r, ?_, hdig⟩
        rw [List.cons_append, List.dropWhile_cons_of_pos hc]
        exact hd
    · refine ⟨c, b' ++ tail, ?_, ?_⟩
      · rw [List.cons_append, List.dropWhile_cons_of_neg (by simp [hc])]
      · exact nameClass_not_digit c (hcl c (by simp)) (by simpa using hc)

theorem nameCont_append_false (tail : List Char) (b : List Char)
    (hb : b ≠ []) (hcl : ∀ c ∈ b, nameClass c = true)
    (hlast : ∀ cl, b.getLast? = some cl → isWsC cl = false) :
    nameCont (b ++ tail) = false := by
  cases b with
  | nil => exact absurd rfl hb
  | cons c b' =>
    by_cases hc : isWsC c = true
    · obtain ⟨h, r, hd, hdig⟩ :=
        dropWhile_head_not_digit tail (c :: b') (by simp) hcl hlast
      rw [List.cons_append] at hd
      simp only [List.cons_append, nameCont, hc, Bool.true_and]
      rw [hd]
      exact hdig
    · simp only [List.cons_append, nameCont, Bool.and_eq_false_imp]
      intro hc2
      rw [hc2] at hc
      exact absurd rfl hc

theorem nameGo_run (tail : List Char) (htail : nameCont tail = true) :
    ∀ (b taken : List Char), (∀ c ∈ b, nameClass c = true) →
      (∀ cl, b.getLast? = some cl → isWsC cl = false) →
      nameGo taken (b ++ tail) = some (taken.reverse ++ b) := by
  intro b
  induction b with
  | nil =>
    intro taken _ _
    rw [List.nil_append, List.append_nil]
    cases tail with
    | nil => rfl
    | cons t ts => simp [nameGo, htail]
  | cons c b' ih =>
    intro taken hcl hlast
    have hfalse := nameCont_append_false tail (c :: b') (by simp) hcl hlast
    have hcls : nameClass c = true := hcl c (by simp)
    have hlast' : ∀ cl, b'.getLast? = some cl → isWsC cl = false := by
      intro cl hc2
      apply hlast
      cases b' with
      | nil => simp at hc2
      | cons x xs => rw [List.getLast?_cons_cons]; exact hc2
    have hcl' : ∀ x ∈ b', nameClass x = true :=
      fun x hx => hcl x (by simp [hx])
    have step : nameGo taken ((c :: b') ++ tail) =
        nameGo (c :: taken) (b' ++ tail) := by
      rw [List.cons_append]
      simp [nameGo, hfalse, hcls]
      intro hcont
      rw [← List.cons_append] at hcont
      rw [hcont] at hfalse
      cases hfalse
    rw [step, ih (c :: taken) hcl' hlast']
    simp

theorem trimL_eq_self (s : List Char)
    (h1 : ∀ c, s.head? = some c → isWsC c = false)
    (h2 : ∀ c, s.getLast? = some c → isWsC c = false) : trimL s = s := by
  have e1 : s.dropWhile isWsC = s := by
    cases s with
    | nil => rfl
    | cons c r => exact List.dropWhile_cons_of_neg (by simp [h1 c rfl])
  have e2 : s.reverse.dropWhile isWsC = s.reverse := by
    cases hr : s.reverse with
    | nil => rfl
    | cons c r =>
      have hlast : s.getLast? = some c := by
        rw [List.getLast?_eq_head?_reverse, hr]
        rfl
      rw [← hr]
      cases hr2 : s.reverse with
      | nil => rfl
      | cons c2 r2 =>
        have : c2 = c := by rw [hr2] at hr; exact (List.cons.injEq .. ▸ hr).1
        exact List.dropWhile_cons_of_neg
          (by simp [this, h2 c hlast])
  rw [trimL, e1, e2, List.reverse_reverse]

theorem nameCont_ws_digit (w : List Char) (d : Char) (rest : List Char)
    (hw : w ≠ []) (hw2 : ∀ c ∈ w, isWsC c = true)
    (hd : isDigitC d = true) : nameCont (w ++ d :: rest) = true := by
  cases w with
  | nil => exact absurd rfl hw
  | cons c w' =>
    have hc : isWsC c = true := hw2 c (by simp)
    simp only [List.cons_append, nameCont, hc, Bool.true_and]
    have hdw : List.dropWhile isWsC (c :: (w' ++ d :: rest)) = d :: rest := by
      rw [List.dropWhile_cons_of_pos hc,
        List.dropWhile_append_of_pos (fun a ha => hw2 a (by simp [ha]))]
      exact List.dropWhile_cons_of_neg (by simp [isDigitC_not_ws d hd])
    rw [hdw]
    exact hd

/-- C9 amended: the name is the capture of the anchored pattern
`^([A-Z][A-Z\s\-]+?)(?:\s+\d|$)`: an uppercase letter followed by *at
least one* further letter/whitespace/hyphen, extended lazily until a
whitespace run followed by a digit (or the end of text), then trimmed.
So a leading run of letters is returned only when it has length at least
2 and the first digit is separated from it by whitespace; in every other
case — including when a perfectly good shorter or digit-adjacent leading
run exists — the name falls back to the first two whitespace-delimited
tokens of the upper-cased text.  In particular
`parse("ACETAMINOPHEN 500MG TABS PO")` yields name `"ACETAMINOPHEN"`. -/
theorem name_extraction_amended :
    (∀ (c0 c1 : Char) (tl w rest : List Char) (d : Char),
      isUpperAZ c0 = true → nameClass c1 = true →
      (∀ c ∈ tl, nameClass c = true) →
      noTrailWs (c0 :: c1 :: tl) = true →
      w ≠ [] → (∀ c ∈ w, isWsC c = true) → isDigitC d = true →
      nameOf ((c0 :: c1 :: tl) ++ w ++ d :: rest) = c0 :: c1 :: tl) ∧
    (∀ u : List Char, nameMatch u = none →
      nameOf u = joinSp ((splitWsL u).take 2)) ∧
    (parseDrug "ACETAMINOPHEN 500MG TABS PO").map Parsed.name =
      some "ACETAMINOPHEN" := by
  refine ⟨?_, ?_, by decide⟩
  · intro c0 c1 tl w rest d h0 h1 h2 hnt hw hw2 hd
    have hlast := noTrailWs_spec _ hnt
    have htail := nameCont_ws_digit w d rest hw hw2 hd
    have hlast' : ∀ cl, tl.getLast? = some cl → isWsC cl = false := by
      intro cl hc
      apply hlast
      cases tl with
      | nil => simp at hc
      | cons x xs =>
        simp only [List.getLast?_cons_cons]
        exact hc
    have hgo := nameGo_run (w ++ d :: rest) htail tl [c1, c0] h2 hlast'
    have hm : nameMatch ((c0 :: c1 :: tl) ++ w ++ d :: rest) =
        some (c0 :: c1 :: tl) := by
      have hshape : (c0 :: c1 :: tl) ++ w ++ d :: rest =
          c0 :: c1 :: (tl ++ (w ++ d :: rest)) := by simp
      rw [hshape]
      simp only [nameMatch, h0, h1, Bool.and_self, if_true]
      rw [hgo]
      simp
    simp only [nameOf, hm]
    refine trimL_eq_self _ ?_ hlast
    intro c hc
    have hcc : c0 = c := by simpa using hc
    rw [← hcc]
    exact isUpperAZ_not_ws c0 h0
  · intro u h
    simp [nameOf, h]

/-- Witness for C9 (amended): the spec's own vector, decomposed as
capture run `"ACETAMINOPHEN"`, a space, then the digit `'5'` of
`"500MG"`. -/
theorem name_extraction_amended_witness :
    nameOf (('A' :: 'C' :: "ETAMINOPHEN".toList) ++ [' '] ++
        '5' :: "00MG TABS PO".toList) =
      'A' :: 'C' :: "ETAMINOPHEN".toList :=
  name_extraction_amended.1 'A' 'C' "ETAMINOPHEN".toList [' ']
    "00MG TABS PO".toList '5' (by decide) (by decide) (by decide)
    (by decide) (by decide) (by decide) (by decide)

theorem lastOr_ne (pre : List Char) :
    ∀ prev : Option Char, pre ≠ [] → lastOr prev pre = pre.getLast? := by
  induction pre with
  | nil => intro prev h; exact absurd rfl h
  | cons c t ih =>
    intro prev _
    cases t with
    | nil => rfl
    | cons c2 t2 =>
      show lastOr (some c) (c2 :: t2) = _
      rw [ih (some c) (by simp), List.getLast?_cons_cons]

theorem lastOr_none_eq (pre : List Char) :
    lastOr none pre = pre.getLast? := by
  cases pre with
  | nil => rfl
  | cons c t => exact lastOr_ne (c :: t) none (by simp)

theorem hasWW_char (a : List Char) :
    ∀ (u : List Char) (prev : Option Char),
      hasWW a prev u = true ↔
        ∃ pre post, u = pre ++ a ++ post ∧
          okBefore (lastOr prev pre) = true ∧ okAfter post = true := by
  intro u
  induction u with
  | nil =>
    intro prev
    simp only [hasWW, wwAt, Bool.and_eq_true]
    constructor
    · rintro ⟨⟨hb, hpre⟩, hafter⟩
      have ha : a = [] := by
        simpa using List.isPrefixOf_iff_prefix.mp hpre
      subst ha
      exact ⟨[], [], rfl, hb, by simpa using hafter⟩
    · rintro ⟨pre, post, hu, hb, hafter⟩
      have h3 : pre = [] ∧ a = [] ∧ post = [] := by
        have := hu.symm
        simp only [List.append_eq_nil, List.append_assoc] at this
        exact ⟨this.1, this.2.1, this.2.2⟩
      obtain ⟨h1, h2, h4⟩ := h3
      subst h1; subst h2; subst h4
      exact ⟨⟨hb, by simp⟩, by simpa using hafter⟩
  | cons c rest ih =>
    intro prev
    simp only [hasWW, Bool.or_eq_true]
    constructor
    · rintro (h | h)
      · simp only [wwAt, Bool.and_eq_true] at h
        obtain ⟨⟨hb, hpre⟩, hafter⟩ := h
        obtain ⟨t, ht⟩ := List.isPrefixOf_iff_prefix.mp hpre
        refine ⟨[], t, by simp [← ht], hb, ?_⟩
        rw [← ht, List.drop_left] at hafter
        exact hafter
      · obtain ⟨pre, post, hu, hb, hafter⟩ := (ih (some c)).mp h
        exact ⟨c :: pre, post, by simp [hu], hb, hafter⟩
    · rintro ⟨pre, post, hu, hb, hafter⟩
      cases pre with
      | nil =>
        left
        simp only [List.nil_append] at hu
        simp only [wwAt, Bool.and_eq_true]
        refine ⟨⟨hb, ?_⟩, ?_⟩
        · exact List.isPrefixOf_iff_prefix.mpr ⟨post, hu.symm⟩
        · rw [hu, List.drop_left]
          exact hafter
      | cons c' pre' =>
        right
        have hc : c' = c ∧ rest = pre' ++ a ++ post := by
          have h2 := hu
          simp only [List.cons_append, List.cons.injEq] at h2
          exact ⟨h2.1.symm, h2.2⟩
        obtain ⟨hc1, hc2⟩ := hc
        subst hc1
        exact (ih (some c')).mpr ⟨pre', post, hc2, hb, hafter⟩

/-- C8: the form and route fields come from scanning the two fixed
ordered tables over the upper-cased trimmed text; an entry matches iff
its abbreviation occurs somewhere with regex word boundaries (`\b`) on
both sides, and the first *table* entry that matches wins — the tie is
broken by table order alone, not by position in the text, match length
or specificity.  The concrete conjuncts show table order beating text
order: in "CAPS SOLN" both CAPS and SOLN match but SOLN (earlier in the
form table) wins; in "VAG PO" both routes match but PO (earlier in the
route table) wins. -/
theorem form_route_first_match_spec :
    (∀ d : String, d ≠ "" →
      (parseDrug d).map Parsed.form =
        some ((firstHit FORMS (prepText d)).map Prod.fst) ∧
      (parseDrug d).map Parsed.formFull =
        some ((firstHit FORMS (prepText d)).map Prod.snd) ∧
      (parseDrug d).map Parsed.route =
        some ((firstHit ROUTES (prepText d)).map Prod.fst) ∧
      (parseDrug d).map Parsed.routeFull =
        some ((firstHit ROUTES (prepText d)).map Prod.snd)) ∧
    (∀ (tbl : List (String × String)) (u : List Char)
        (q : String × String),
      firstHit tbl u = some q ↔
        hasWW q.1.toList none u = true ∧
        ∃ pre post, tbl = pre ++ q :: post ∧
          ∀ p ∈ pre, hasWW p.1.toList none u = false) ∧
    (∀ a u : List Char, hasWW a none u = true ↔
      ∃ pre post, u = pre ++ a ++ post ∧
        okBefore pre.getLast? = true ∧ okAfter post = true) ∧
    firstHit FORMS (prepText "CAPS SOLN") = some ("SOLN", "Solution") ∧
    firstHit ROUTES (prepText "VAG PO") = some ("PO", "Oral") := by
  refine ⟨?_, ?_, ?_, by decide, by decide⟩
  · intro d hne
    simp only [parseDrug, if_neg hne]
    rcases hc : concScan (prepText d) with _ | g
    · rcases hs : strengthScan (prepText d) with _ | p
      · simp
      · simp
    · simp
  · intro tbl u q
    rw [firstHit, List.find?_eq_some]
    constructor
    · rintro ⟨hq, pre, post, htbl, hpre⟩
      exact ⟨hq, pre, post, htbl, fun p hp => by simpa using hpre p hp⟩
    · rintro ⟨hq, pre, post, htbl, hpre⟩
      exact ⟨hq, pre, post, htbl, fun p hp => by simpa using hpre p hp⟩
  · intro a u
    rw [hasWW_char a u none]
    simp only [lastOr_none_eq]

/-- Witness for C8: the first-match characterization instantiated at the
form table and the text "CAPS SOLN" — SOLN sits before CAPS in the
table, matches as a whole word, and no earlier entry matches. -/
theorem form_route_first_match_spec_witness :
    (parseDrug "CAPS SOLN").map Parsed.formFull =
      some ((firstHit FORMS (prepText "CAPS SOLN")).map Prod.snd) ∧
    (hasWW "SOLN".toList none (prepText "CAPS SOLN") = true ∧
      ∃ pre post, FORMS = pre ++ ("SOLN", "Solution") :: post ∧
        ∀ p ∈ pre, hasWW p.1.toList none (prepText "CAPS SOLN") = false) :=
  ⟨(form_route_first_match_spec.1 "CAPS SOLN" (by decide)).2.1,
   (form_route_first_match_spec.2.1 FORMS (prepText "CAPS SOLN")
      ("SOLN", "Solution")).mp (by decide)⟩

theorem searchLoop_eq (terms : List (List Char)) :
    ∀ (l : List Row) (i : Nat) (acc : List (Nat × Row)),
      acc.length < 100 →
      searchLoop terms l i acc =
        acc.reverse ++
          (((l.enumFrom i).filter fun p => rowMatches terms p.2).take
            (100 - acc.length)) := by
  intro l
  induction l with
  | nil => intro i acc _; simp [searchLoop]
  | cons row rest ih =>
    intro i acc hlen
    by_cases hm : rowMatches terms row
    · by_cases hfull : 100 ≤ ((i, row) :: acc).length
      · have h99 : acc.length = 99 := by
          simp only [List.length_cons] at hfull
          omega
        have htake : 100 - acc.length = 1 := by omega
        simp only [searchLoop, hm, if_true, if_pos hfull,
          List.enumFrom_cons, List.filter_cons, hm, htake]
        simp [List.take_succ_cons]
      · have hlen' : ((i, row) :: acc).length < 100 := by
          simp only [List.length_cons] at hfull ⊢
          omega
        have harith : 100 - acc.length = (100 - ((i, row) :: acc).length) + 1 := by
          simp only [List.length_cons]
          omega
        simp only [searchLoop, hm, if_true, if_neg hfull,
          List.enumFrom_cons, List.filter_cons, hm, harith,
          List.take_succ_cons]
        rw [ih (i + 1) ((i, row) :: acc) hlen']
        simp
    · simp only [searchLoop, hm, if_false, List.enumFrom_cons,
        List.filter_cons, hm]
      rw [ih (i + 1) acc hlen]
      simp

/-- C3: for a query whose trimmed, case-folded text has at least 2
characters, run against a nonempty catalog, the search returns exactly
the first at-most-100 records, in catalog index order, matching every
whitespace-separated query term as a substring of the lower-cased
description-plus-codes text — the index-order prefix of the full match
list, not a relevance-ranked top 100. -/
theorem search_first100_index_order (q : String) (items : List Row)
    (hq : 2 ≤ (toLowerL (trimL q.toList)).length) (hi : items ≠ []) :
    performSearch q items = .results
      ((items.enum.filter fun p =>
          rowMatches (splitWsL (toLowerL (trimL q.toList))) p.2).take
        100) := by
  have h1 : ¬ (toLowerL (trimL q.toList)).length < 2 := by omega
  have h2 : ¬ items.isEmpty = true := by simpa using hi
  simp only [performSearch, if_neg h1, if_neg h2]
  rw [searchLoop_eq _ items 0 [] (by simp)]
  simp [List.enum]

/-- Witness for C3: the query "asp 325" against a 3-item catalog returns
exactly the single matching aspirin row with its index, and against a
catalog of 150 copies of that row it returns the first-100 prefix of the
match list. -/
theorem search_first100_index_order_witness :
    performSearch "asp 325" [rowGross100, rowDcZero, rowDrug2ME] =
      .results [(0, rowGross100)] ∧
    performSearch "asp 325" (List.replicate 150 rowGross100) = .results
      (((List.replicate 150 rowGross100).enum.filter fun p =>
          rowMatches (splitWsL (toLowerL (trimL "asp 325".toList)))
            p.2).take 100) := by
  constructor
  · rw [search_first100_index_order "asp 325"
      [rowGross100, rowDcZero, rowDrug2ME] (by decide) (by decide)]
    decide
  · exact search_first100_index_order "asp 325"
      (List.replicate 150 rowGross100) (by decide) (by simp)
